import Mathlib

/-!
Verification of the asynchronous audio transcription pipeline of
`src/index.js` (playwright-dynamic).  The relevant JavaScript functions are
shallowly embedded as Lean definitions:

* `calculateOptimalChunkDuration` — the Chunk Planner (lines 885–911);
* `assemblePipeline` — the Assembler step of `executeTranscriptionTask`
  (lines 1205–1213);
* `downloadGo` / `downloadWithRetryModel` — the Resilient Fetcher
  `downloadWithRetry` (lines 65–133);
* `postTranscribe` — the `POST /transcribe` handler (lines 969–1034);
* `transLoop` / `runTask` — the orchestrator `executeTranscriptionTask`
  (lines 1078–1255), parameterised by an environment describing the
  outcomes of the external collaborators (network, ffprobe, ffmpeg,
  the Whisper API) and by a fuel bound for the batch loop, which in the
  source can diverge for non-positive `max_parallel`.

JavaScript numbers are modelled as `ℚ` (durations) and `ℤ`/`ℕ`
(counters, progress); `Math.ceil`/`Math.floor` become `Int.ceil`/
`Int.floor`; JavaScript truthiness of numbers/strings is modelled
explicitly (`0`, `""`, `null` are falsy).
-/

/-! ## Data model -/

inductive Status
  | pending
  | downloading
  | splitting
  | transcribing
  | completed
  | failed
deriving DecidableEq

/-- Task errors stored in the `error` field of a failed task.  The source
stores human-readable strings; only the identity of the failure and the
numbers interpolated into the duration-too-short message are modelled. -/
inductive TaskError
  | downloadFailed
  | probeFailed
  | durationTooShort (minutes seconds : ℤ)
deriving DecidableEq

/-- One snapshot of the mutable task record after an `updateTask` call
(`executeTranscriptionTask`, line 1082: `Object.assign` merge).  Fields not
yet written keep their defaults (`""`, `0`, `none`). -/
structure Snapshot where
  status : Status
  progress : ℤ
  transcript : String
  word_count : ℕ
  successful_chunks : ℕ
  error : Option TaskError
deriving DecidableEq

/-- A surviving chunk produced by the split loop (lines 1137–1163). -/
structure AudioChunk where
  index : ℕ
  start_time : ℚ
  duration : ℚ
  size : ℕ

/-- Per-chunk outcome of the Transcription Executor (lines 1180–1188). -/
structure ChunkOutcome where
  index : ℕ
  text : String
  success : Bool
deriving DecidableEq

/-! ## Constants (source lines 38, 885–890, 967) -/

def TARGET_CHUNK_COUNT : ℚ := 10

def MIN_CHUNK_DURATION : ℤ := 120

def MAX_CHUNK_DURATION : ℤ := 900

def THRESHOLD_DURATION : ℚ := 6000

def LONG_AUDIO_CHUNK : ℤ := 600

def MAX_PARALLEL : ℚ := 10

def MAX_WHISPER_SIZE : ℕ := 25 * 1024 * 1024

def MIN_DURATION_SECONDS : ℚ := 300

/-! ## Chunk Planner (lines 897–911) -/

/-- `calculateOptimalChunkDuration(totalDuration)`: fixed 600 s for long
audio, otherwise `Math.ceil(totalDuration / 10)` pushed up to 120 s and
then capped at 900 s, in exactly the order of the source. -/
def calculateOptimalChunkDuration (totalDuration : ℚ) : ℤ :=
  if THRESHOLD_DURATION ≤ totalDuration then LONG_AUDIO_CHUNK
  else
    min MAX_CHUNK_DURATION
      (max MIN_CHUNK_DURATION ⌈totalDuration / TARGET_CHUNK_COUNT⌉)

/-! ## Assembler (lines 1205–1213) -/

/-- `transcripts.sort((a, b) => a.index - b.index)`: V8 sort is stable, so
a stable merge sort on the comparator-induced order models it. -/
def sortByIndex (l : List ChunkOutcome) : List ChunkOutcome :=
  l.mergeSort (fun a b => decide (a.index ≤ b.index))

/-- Lines 1206–1213: sort, filter truthy texts, trim, join with a blank
line, report the joined length and the number of successful outcomes. -/
def assemblePipeline (transcripts : List ChunkOutcome) : String × ℕ × ℕ :=
  let sorted := sortByIndex transcripts
  let fullTranscript :=
    String.intercalate "\n\n"
      ((sorted.filter (fun t => !(t.text == ""))).map (fun t => t.text.trim))
  (fullTranscript, fullTranscript.length, sorted.countP (fun t => t.success))

/-! ## Claims C1 and C2 (Chunk Planner) -/

/-- Claim C2: the Chunk Planner is a pure deterministic function of the
total duration: at least 6000 s gives exactly 600 s, below 6000 s gives
`ceil(total / 10)` clamped into `[120, 900]`. -/
theorem c2_planner_formula (q : ℚ) :
    (6000 ≤ q → calculateOptimalChunkDuration q = 600) ∧
    (q < 6000 → calculateOptimalChunkDuration q = min (max ⌈q / 10⌉ 120) 900) := by
  constructor
  · intro h
    simp only [calculateOptimalChunkDuration, THRESHOLD_DURATION, LONG_AUDIO_CHUNK]
    rw [if_pos h]
  · intro h
    simp only [calculateOptimalChunkDuration, THRESHOLD_DURATION, LONG_AUDIO_CHUNK,
      MIN_CHUNK_DURATION, MAX_CHUNK_DURATION, TARGET_CHUNK_COUNT]
    rw [if_neg (by exact not_le.mpr h)]
    omega

/-- Witness for C2 at the concrete durations 7000 s and 300 s. -/
theorem c2_planner_formula_witness :
    calculateOptimalChunkDuration 7000 = 600 ∧
    calculateOptimalChunkDuration 300 = min (max ⌈(300 : ℚ) / 10⌉ 120) 900 :=
  ⟨(c2_planner_formula 7000).1 (by norm_num), (c2_planner_formula 300).2 (by norm_num)⟩

theorem plan_at_300 : calculateOptimalChunkDuration 300 = 120 := by
  rw [(c2_planner_formula 300).2 (by norm_num)]
  rw [show (300 : ℚ) / 10 = ((30 : ℤ) : ℚ) by norm_num, Int.ceil_intCast]
  decide

/-- Counterexample to C1 as stated: at `totalDurationSeconds = 300` the
planner returns 120 (in range), but `ceil(300 / 120) = 3` chunks, which is
not within ±1 of 10. -/
theorem c1_chunk_count_cex :
    ¬ (120 ≤ calculateOptimalChunkDuration 300 ∧
        calculateOptimalChunkDuration 300 ≤ 900 ∧
        9 ≤ ⌈(300 : ℚ) / ((calculateOptimalChunkDuration 300 : ℤ) : ℚ)⌉ ∧
        ⌈(300 : ℚ) / ((calculateOptimalChunkDuration 300 : ℤ) : ℚ)⌉ ≤ 11) := by
  rw [plan_at_300]
  have h3 : ⌈(300 : ℚ) / ((120 : ℤ) : ℚ)⌉ = 3 := by
    rw [Int.ceil_eq_iff]
    norm_num
  rw [h3]
  norm_num

/-- Claim C1, amended: for every total duration below 6000 s the planner
returns a value in `[120, 900]`; the chunk count `ceil(total / plan)` is
within ±1 of 10 only once the total duration exceeds 960 s (below that the
planner floor of 120 s forces fewer chunks, e.g. 3 chunks at 300 s). -/
theorem c1_planner_range_and_count (q : ℚ) (hhi : q < 6000) :
    (120 ≤ calculateOptimalChunkDuration q ∧ calculateOptimalChunkDuration q ≤ 900) ∧
    (960 < q →
      9 ≤ ⌈q / ((calculateOptimalChunkDuration q : ℤ) : ℚ)⌉ ∧
      ⌈q / ((calculateOptimalChunkDuration q : ℤ) : ℚ)⌉ ≤ 11) := by
  have hform := (c2_planner_formula q).2 hhi
  constructor
  · rw [hform]
    exact ⟨le_min (le_max_right _ _) (by norm_num), min_le_right _ _⟩
  · intro hlo
    rcases le_or_lt q 1200 with hq | hq
    · have hc : ⌈q / 10⌉ ≤ 120 := by
        rw [Int.ceil_le]
        rw [div_le_iff₀ (by norm_num : (0 : ℚ) < 10)]
        push_cast
        linarith
      have hp : calculateOptimalChunkDuration q = 120 := by
        rw [hform, max_eq_right hc, min_eq_left (by norm_num)]
      rw [hp]
      constructor
      · rw [show (9 : ℤ) = 8 + 1 by norm_num, Int.add_one_le_iff, Int.lt_ceil]
        rw [lt_div_iff₀ (by norm_num : (0 : ℚ) < ((120 : ℤ) : ℚ))]
        push_cast
        linarith
      · refine le_trans (Int.ceil_le.mpr ?_) (by norm_num : (10 : ℤ) ≤ 11)
        rw [div_le_iff₀ (by norm_num : (0 : ℚ) < ((120 : ℤ) : ℚ))]
        push_cast
        linarith
    · have hc1 : 120 < ⌈q / 10⌉ := by
        rw [Int.lt_ceil]
        rw [lt_div_iff₀ (by norm_num : (0 : ℚ) < 10)]
        push_cast
        linarith
      have hc2 : ⌈q / 10⌉ ≤ 600 := by
        rw [Int.ceil_le]
        rw [div_le_iff₀ (by norm_num : (0 : ℚ) < 10)]
        push_cast
        linarith
      have hp : calculateOptimalChunkDuration q = ⌈q / 10⌉ := by
        rw [hform, max_eq_left hc1.le, min_eq_left (by omega)]
      rw [hp]
      have hcpos : (0 : ℚ) < ((⌈q / 10⌉ : ℤ) : ℚ) := by
        have : (120 : ℚ) < ((⌈q / 10⌉ : ℤ) : ℚ) := by exact_mod_cast hc1
        linarith
      have hle : q / 10 ≤ ((⌈q / 10⌉ : ℤ) : ℚ) := Int.le_ceil _
      have hlt : ((⌈q / 10⌉ : ℤ) : ℚ) < q / 10 + 1 := Int.ceil_lt_add_one _
      constructor
      · rw [show (9 : ℤ) = 8 + 1 by norm_num, Int.add_one_le_iff, Int.lt_ceil]
        rw [lt_div_iff₀ hcpos]
        nlinarith
      · refine le_trans (Int.ceil_le.mpr ?_) (by norm_num : (10 : ℤ) ≤ 11)
        rw [div_le_iff₀ hcpos]
        nlinarith

/-- Witness for the amended C1 at the spec's own example, 1850 s. -/
theorem c1_planner_range_and_count_witness :
    (120 ≤ calculateOptimalChunkDuration 1850 ∧ calculateOptimalChunkDuration 1850 ≤ 900) ∧
    (960 < (1850 : ℚ) →
      9 ≤ ⌈(1850 : ℚ) / ((calculateOptimalChunkDuration 1850 : ℤ) : ℚ)⌉ ∧
      ⌈(1850 : ℚ) / ((calculateOptimalChunkDuration 1850 : ℤ) : ℚ)⌉ ≤ 11) :=
  c1_planner_range_and_count 1850 (by norm_num)

/-! ## Resilient Fetcher `downloadWithRetry` (lines 65–133) -/

/-- A JavaScript error value: only `name` and `message` are inspected by
the retry classification (lines 120–121). -/
structure JsError where
  name : String
  message : String
deriving DecidableEq

/-- `needle.isPrefixOf hay` on character lists (kernel-reducible). -/
def hasPref : List Char → List Char → Bool
  | [], _ => true
  | _ :: _, [] => false
  | c :: cs, d :: ds => c == d && hasPref cs ds

/-- substring occurrence on character lists (kernel-reducible). -/
def hasSub : List Char → List Char → Bool
  | n, [] => hasPref n []
  | n, d :: ds => hasPref n (d :: ds) || hasSub n ds

/-- JavaScript `message.includes(sub)` (case-sensitive substring test). -/
def msgContains (message sub : String) : Bool :=
  hasSub sub.toList message.toList

/-- Line 120: `error.name === 'AbortError' || error.message.includes('timeout')`. -/
def isTimeoutErr (e : JsError) : Bool :=
  e.name == "AbortError" || msgContains e.message "timeout"

/-- Line 121: message contains `ECONNRESET` or `ETIMEDOUT`. -/
def isNetworkErr (e : JsError) : Bool :=
  msgContains e.message "ECONNRESET" || msgContains e.message "ETIMEDOUT"

/-- What the network does on one attempt: either `fetch` resolves with a
response (`ok`, `status`, `statusText`, streamed body bytes) or it rejects
with an error (abort, connection reset, ...). -/
inductive FetchAttempt
  | resp (ok : Bool) (status : ℕ) (statusText : String) (body : List ℕ)
  | reject (e : JsError)
deriving DecidableEq

/-- The body of one `try` block (lines 75–117): a non-2xx response is
turned into `new Error("HTTP status: statusText")`, a resolved ok response
yields the assembled byte buffer. -/
def attemptResult (net : ℕ → FetchAttempt) (k : ℕ) : Except JsError (List ℕ) :=
  match net k with
  | .resp true _ _ body => .ok body
  | .resp false st sx _ => .error ⟨"Error", "HTTP " ++ toString st ++ ": " ++ sx⟩
  | .reject e => .error e

deriving instance DecidableEq for Except

/-- Observable outcome of a `downloadWithRetry` run: final result, the
1-based number of the attempt it ended on, and the sleeps performed. -/
structure DownloadRun where
  result : Except JsError (List ℕ)
  attemptsUsed : ℕ
  delays : List ℕ
deriving DecidableEq

/-- The retry loop (lines 74–130): `left` counts the attempts still
allowed (including the current one, numbered `k`); `0 < left` is the
source's `attempt < maxRetries` guard.  `left = 0` is the fallthrough
`throw lastError ∨ new Error(...)` after the loop (reachable only with
`maxRetries = 0`, where no attempt ran and `lastError` is null). -/
def downloadGo (net : ℕ → FetchAttempt) (retryDelay : ℕ) : ℕ → ℕ → DownloadRun
  | 0, _ => ⟨.error ⟨"Error", "Download failed after all retries"⟩, 0, []⟩
  | left + 1, k =>
    match attemptResult net k with
    | .ok b => ⟨.ok b, k, []⟩
    | .error e =>
      if 0 < left ∧ (isTimeoutErr e || isNetworkErr e) = true then
        let r := downloadGo net retryDelay left (k + 1)
        ⟨r.result, r.attemptsUsed, retryDelay :: r.delays⟩
      else ⟨.error e, k, []⟩

/-- `downloadWithRetry(url, {maxRetries, retryDelay})` against a network
behaviour `net`. -/
def downloadWithRetry (net : ℕ → FetchAttempt) (maxRetries retryDelay : ℕ) : DownloadRun :=
  downloadGo net retryDelay maxRetries 1

theorem downloadGo_succ (net : ℕ → FetchAttempt) (rd n k : ℕ) :
    downloadGo net rd (n + 1) k =
      match attemptResult net k with
      | .ok b => ⟨.ok b, k, []⟩
      | .error e =>
        if 0 < n ∧ (isTimeoutErr e || isNetworkErr e) = true then
          ⟨(downloadGo net rd n (k + 1)).result, (downloadGo net rd n (k + 1)).attemptsUsed,
            rd :: (downloadGo net rd n (k + 1)).delays⟩
        else ⟨.error e, k, []⟩ := rfl

theorem downloadGo_spec (net : ℕ → FetchAttempt) (rd : ℕ) :
    ∀ left k, 1 ≤ left →
      (k ≤ (downloadGo net rd left k).attemptsUsed ∧
        (downloadGo net rd left k).attemptsUsed ≤ k + (left - 1)) ∧
      (∀ j, k ≤ j → j < (downloadGo net rd left k).attemptsUsed →
        ∃ e, attemptResult net j = .error e ∧ (isTimeoutErr e || isNetworkErr e) = true) ∧
      (∀ b, (downloadGo net rd left k).result = .ok b →
        attemptResult net (downloadGo net rd left k).attemptsUsed = .ok b) ∧
      (∀ e, (downloadGo net rd left k).result = .error e →
        attemptResult net (downloadGo net rd left k).attemptsUsed = .error e ∧
          ((downloadGo net rd left k).attemptsUsed = k + (left - 1) ∨
            (isTimeoutErr e || isNetworkErr e) = false)) ∧
      (downloadGo net rd left k).delays =
        List.replicate ((downloadGo net rd left k).attemptsUsed - k) rd := by
  intro left
  induction left with
  | zero =>
    intro k h
    omega
  | succ n ih =>
    intro k _
    rw [downloadGo_succ]
    rcases hr : attemptResult net k with e | b
    case error =>
      dsimp only
      by_cases hcond : 0 < n ∧ (isTimeoutErr e || isNetworkErr e) = true
      · rw [if_pos hcond]
        obtain ⟨⟨hlo, hhi⟩, hearl, hok, herr, hdel⟩ := ih (k + 1) hcond.1
        dsimp only
        refine ⟨⟨by omega, by omega⟩, ?_, hok, ?_, ?_⟩
        · intro j h1 h2
          rcases eq_or_lt_of_le h1 with rfl | hj
          · exact ⟨e, hr, hcond.2⟩
          · exact hearl j hj h2
        · intro e2 he
          obtain ⟨ha, hb2⟩ := herr e2 he
          rcases hb2 with hb2 | hb2
          · exact ⟨ha, Or.inl (by omega)⟩
          · exact ⟨ha, Or.inr hb2⟩
        · rw [hdel,
            show (downloadGo net rd n (k + 1)).attemptsUsed - k =
              ((downloadGo net rd n (k + 1)).attemptsUsed - (k + 1)) + 1 by omega,
            List.replicate_succ]
      · rw [if_neg hcond]
        dsimp only
        refine ⟨⟨le_rfl, by omega⟩, ?_, ?_, ?_, by simp⟩
        · intro j h1 h2
          omega
        · intro b2 hb
          exact Except.noConfusion hb
        · intro e2 he
          cases he
          rcases not_and_or.mp hcond with h0 | hretry
          · exact ⟨hr, Or.inl (by omega)⟩
          · exact ⟨hr, Or.inr (by simpa using hretry)⟩
    case ok =>
      dsimp only
      refine ⟨⟨le_rfl, by omega⟩, ?_, ?_, ?_, by simp⟩
      · intro j h1 h2
        omega
      · intro b2 hb
        cases hb
        exact hr
      · intro e2 he
        exact Except.noConfusion he

/-- Claim C4, amended: `downloadWithRetry` makes between 1 and
`maxRetries` attempts; every attempt before the final one failed with an
error classified as retryable — name `AbortError`, or message containing
`"timeout"`, `"ECONNRESET"` or `"ETIMEDOUT"` (note: a non-2xx HTTP
response carries message `"HTTP status: statusText"`, so a status text
mentioning `"timeout"` is also retried, which is why the claim's
"any non-2xx fails immediately" had to be weakened); the byte buffer is
returned only from a successful attempt; a final error is the error of the
last attempt made, which was either the `maxRetries`-th or a
non-retryable one; each sleep between attempts is the fixed `retryDelay`. -/
theorem c4_fetcher_retry_policy (net : ℕ → FetchAttempt) (maxRetries retryDelay : ℕ)
    (h : 1 ≤ maxRetries) :
    (1 ≤ (downloadWithRetry net maxRetries retryDelay).attemptsUsed ∧
      (downloadWithRetry net maxRetries retryDelay).attemptsUsed ≤ maxRetries) ∧
    (∀ j, 1 ≤ j → j < (downloadWithRetry net maxRetries retryDelay).attemptsUsed →
      ∃ e, attemptResult net j = .error e ∧ (isTimeoutErr e || isNetworkErr e) = true) ∧
    (∀ b, (downloadWithRetry net maxRetries retryDelay).result = .ok b →
      attemptResult net (downloadWithRetry net maxRetries retryDelay).attemptsUsed = .ok b) ∧
    (∀ e, (downloadWithRetry net maxRetries retryDelay).result = .error e →
      attemptResult net (downloadWithRetry net maxRetries retryDelay).attemptsUsed = .error e ∧
        ((downloadWithRetry net maxRetries retryDelay).attemptsUsed = maxRetries ∨
          (isTimeoutErr e || isNetworkErr e) = false)) ∧
    (downloadWithRetry net maxRetries retryDelay).delays =
      List.replicate ((downloadWithRetry net maxRetries retryDelay).attemptsUsed - 1) retryDelay := by
  have hs := downloadGo_spec net retryDelay maxRetries 1 h
  obtain ⟨⟨h1, h2⟩, hearl, hok, herr, hdel⟩ := hs
  simp only [downloadWithRetry]
  refine ⟨⟨h1, by omega⟩, hearl, hok, ?_, hdel⟩
  intro e he
  obtain ⟨ha, hb⟩ := herr e he
  rcases hb with hb | hb
  · exact ⟨ha, Or.inl (by omega)⟩
  · exact ⟨ha, Or.inr hb⟩

/-- A network whose first attempt is an HTTP 504 with status text
`"gateway timeout"` and whose later attempts succeed with body `[1,2,3]`. -/
def net0 : ℕ → FetchAttempt := fun k =>
  if k = 1 then .resp false 504 "gateway timeout" [] else .resp true 200 "OK" [1, 2, 3]

/-- Counterexample to C4 as stated: the first attempt of `net0` is a
non-2xx HTTP response, yet the run does NOT fail immediately — its message
`"HTTP 504: gateway timeout"` contains `"timeout"`, so it is retried and
the run succeeds on attempt 2 after one delay. -/
theorem c4_http_status_retried_cex :
    net0 1 = FetchAttempt.resp false 504 "gateway timeout" [] ∧
    downloadWithRetry net0 3 2000 =
      { result := .ok [1, 2, 3], attemptsUsed := 2, delays := [2000] } :=
  ⟨rfl, rfl⟩

/-- Witness for the amended C4 at the concrete network `net0`. -/
theorem c4_fetcher_retry_policy_witness :
    (1 ≤ (downloadWithRetry net0 3 2000).attemptsUsed ∧
      (downloadWithRetry net0 3 2000).attemptsUsed ≤ 3) ∧
    (∀ j, 1 ≤ j → j < (downloadWithRetry net0 3 2000).attemptsUsed →
      ∃ e, attemptResult net0 j = .error e ∧ (isTimeoutErr e || isNetworkErr e) = true) ∧
    (∀ b, (downloadWithRetry net0 3 2000).result = .ok b →
      attemptResult net0 (downloadWithRetry net0 3 2000).attemptsUsed = .ok b) ∧
    (∀ e, (downloadWithRetry net0 3 2000).result = .error e →
      attemptResult net0 (downloadWithRetry net0 3 2000).attemptsUsed = .error e ∧
        ((downloadWithRetry net0 3 2000).attemptsUsed = 3 ∨
          (isTimeoutErr e || isNetworkErr e) = false)) ∧
    (downloadWithRetry net0 3 2000).delays =
      List.replicate ((downloadWithRetry net0 3 2000).attemptsUsed - 1) 2000 :=
  c4_fetcher_retry_policy net0 3 2000 (by norm_num)

/-! ## Claims C5 and C9 (Assembler) -/

/-- Claim C5: the Assembler sorts outcomes by index ascending, filters out
empty-text outcomes, trims each remaining text and joins with a double
line break; the reported character count is the length of the joined
string, and the reported success count counts `success = true` outcomes
regardless of their text. -/
theorem c5_assembler_shape (l : List ChunkOutcome) :
    (assemblePipeline l).2.1 = (assemblePipeline l).1.length ∧
    (assemblePipeline l).2.2 = l.countP (fun t => t.success) ∧
    (assemblePipeline l).1 =
      String.intercalate "\n\n"
        (((sortByIndex l).filter (fun t => decide (t.text ≠ ""))).map
          (fun t => String.trim t.text)) := by
  refine ⟨rfl, ?_, ?_⟩
  · exact ((List.mergeSort_perm l _).countP_eq _)
  · have hpred : ∀ t : ChunkOutcome, (!(t.text == "")) = decide (t.text ≠ "") := by
      intro t
      by_cases h : t.text = "" <;> simp [h]
    simp only [assemblePipeline]
    rw [List.filter_congr (fun t _ => hpred t)]

/-- Sorting any two permutations of the same outcome list by index gives
the same list when the indices are pairwise distinct. -/
theorem sortByIndex_perm_eq (l1 l2 : List ChunkOutcome) (hperm : l1.Perm l2)
    (hnodup : (l2.map (fun t => t.index)).Nodup) :
    sortByIndex l1 = sortByIndex l2 := by
  have p1 : (sortByIndex l1).Perm l1 := List.mergeSort_perm l1 _
  have p2 : (sortByIndex l2).Perm l2 := List.mergeSort_perm l2 _
  have p : (sortByIndex l1).Perm (sortByIndex l2) := (p1.trans hperm).trans p2.symm
  have hsymm : ∀ {x y : ChunkOutcome}, x.index ≠ y.index → y.index ≠ x.index :=
    fun h => h.symm
  have hne2 : (sortByIndex l2).Pairwise (fun a b => a.index ≠ b.index) :=
    ((p2.pairwise_iff hsymm).mpr (List.pairwise_map.mp hnodup))
  have hne1 : (sortByIndex l1).Pairwise (fun a b => a.index ≠ b.index) :=
    (p.pairwise_iff hsymm).mpr hne2
  have hsorted : ∀ m : List ChunkOutcome,
      (m.mergeSort (fun a b => decide (a.index ≤ b.index))).Pairwise
        (fun a b => a.index ≤ b.index) := by
    intro m
    have := @List.sorted_mergeSort ChunkOutcome
      (fun a b : ChunkOutcome => decide (a.index ≤ b.index))
      (fun a b c hab hbc => by
        simp only [decide_eq_true_eq] at hab hbc ⊢
        omega)
      (fun a b => by
        simp only [Bool.or_eq_true, decide_eq_true_eq]
        omega) m
    exact this.imp (fun h => of_decide_eq_true h)
  have hlt1 : (sortByIndex l1).Pairwise (fun a b => a.index < b.index) :=
    ((hsorted l1).and hne1).imp (fun h => lt_of_le_of_ne h.1 h.2)
  have hlt2 : (sortByIndex l2).Pairwise (fun a b => a.index < b.index) :=
    ((hsorted l2).and hne2).imp (fun h => lt_of_le_of_ne h.1 h.2)
  haveI : IsAntisymm ChunkOutcome (fun a b => a.index < b.index) :=
    ⟨fun _ _ h1 h2 => absurd h2 (not_lt_of_gt h1)⟩
  exact List.eq_of_perm_of_sorted p hlt1 hlt2

/-- Claim C9: the Assembler is order-independent — assembling any
permutation of an outcome list with pairwise-distinct indices gives the
same transcript, character count and success count. -/
theorem c9_assembler_order_independent (l1 l2 : List ChunkOutcome) (hperm : l1.Perm l2)
    (hnodup : (l2.map (fun t => t.index)).Nodup) :
    assemblePipeline l1 = assemblePipeline l2 := by
  simp only [assemblePipeline]
  rw [sortByIndex_perm_eq l1 l2 hperm hnodup]

/-- Witness for C9 on a concrete two-element shuffle. -/
theorem c9_assembler_order_independent_witness :
    (([⟨1, "b", true⟩, ⟨0, "a", true⟩] : List ChunkOutcome)).Perm
        ([⟨0, "a", true⟩, ⟨1, "b", true⟩] : List ChunkOutcome) ∧
    assemblePipeline [⟨1, "b", true⟩, ⟨0, "a", true⟩] =
      assemblePipeline [⟨0, "a", true⟩, ⟨1, "b", true⟩] :=
  ⟨by decide, c9_assembler_order_independent _ _ (by decide) (by decide)⟩

/-! ## Claim C8 (`POST /transcribe`, lines 969–1034) -/

/-- The JSON body of a submission; absent fields are `none`. -/
structure SubmitBody where
  audio_url : Option String
  language : Option String
  chunk_duration : Option ℚ
  max_parallel : Option ℚ
  expected_duration : Option ℚ

/-- The task record created on acceptance (lines 1009–1019), before the
background pipeline starts. -/
structure TaskInit where
  status : Status
  progress : ℤ
  audio_url : String
  language : String
  chunk_duration : Option ℚ
  max_parallel : ℚ
deriving DecidableEq

/-- The synchronous HTTP response of `POST /transcribe`: either a
rejection (no task record created, no identifier issued) or acceptance
carrying the freshly created record (an identifier is issued). -/
inductive SubmitOutcome
  | rejected (httpStatus : ℕ) (code : Option String)
  | accepted (rec : TaskInit)
deriving DecidableEq

/-- Lines 969–1034.  JavaScript truthiness is explicit: a missing or empty
`audio_url` is rejected; `expected_duration` is only checked when truthy
(so `0` slips through); `chunk_duration` of `0` falls back to the smart
strategy; `max_parallel` of `0` falls back to the default 10.  The
response is computed without reference to any pipeline stage: the handler
stores the record, replies, and only then spawns the background task. -/
def acceptTask (b : SubmitBody) (u : String) : SubmitOutcome :=
  .accepted
    { status := .pending
      progress := 0
      audio_url := u
      language := b.language.getD "auto"
      chunk_duration :=
        match b.chunk_duration with
        | some d => if d = 0 then none else some (min d ((MAX_CHUNK_DURATION : ℤ) : ℚ))
        | none => none
      max_parallel :=
        min (match b.max_parallel with
             | some m => if m = 0 then MAX_PARALLEL else m
             | none => MAX_PARALLEL) MAX_PARALLEL }

def postTranscribe (cfConfigured : Bool) (b : SubmitBody) : SubmitOutcome :=
  match b.audio_url with
  | none => .rejected 400 none
  | some u =>
    if u = "" then .rejected 400 none
    else if cfConfigured = false then .rejected 500 none
    else
      match b.expected_duration with
      | some e =>
        if e ≠ 0 ∧ e < MIN_DURATION_SECONDS then .rejected 400 (some "DURATION_TOO_SHORT")
        else acceptTask b u
      | none => acceptTask b u

/-- Claim C8, amended: a submission supplying a truthy (non-zero)
`expected_duration` below 300 s is rejected synchronously with a
validation error and no task record; every accepted submission yields a
pending record with progress 0 created before any pipeline stage runs
(`postTranscribe` is a function of the request alone — the response never
depends on pipeline behaviour).  The amendment is forced by JavaScript
truthiness: `expected_duration = 0` is falsy, skips the check, and is
accepted. -/
theorem c8_submission_validation (cf : Bool) (b : SubmitBody) :
    (∀ e, b.expected_duration = some e → e ≠ 0 → e < 300 →
      (postTranscribe cf b = .rejected 400 none ∨
        postTranscribe cf b = .rejected 500 none ∨
        postTranscribe cf b = .rejected 400 (some "DURATION_TOO_SHORT"))) ∧
    (∀ rec, postTranscribe cf b = .accepted rec →
      rec.status = .pending ∧ rec.progress = 0) := by
  constructor
  · intro e he hne hlt
    unfold postTranscribe
    rcases hurl : b.audio_url with _ | u
    · exact Or.inl rfl
    · dsimp only
      by_cases hu : u = ""
      · rw [if_pos hu]
        exact Or.inl rfl
      · rw [if_neg hu]
        by_cases hcf : cf = false
        · rw [if_pos hcf]
          exact Or.inr (Or.inl rfl)
        · rw [if_neg hcf, he]
          dsimp only
          rw [if_pos ⟨hne, by simpa [MIN_DURATION_SECONDS] using hlt⟩]
          exact Or.inr (Or.inr rfl)
  · intro rec hacc
    unfold postTranscribe at hacc
    split at hacc
    · exact SubmitOutcome.noConfusion hacc
    · split_ifs at hacc
      split at hacc
      · split_ifs at hacc
        unfold acceptTask at hacc
        injection hacc with h
        rw [← h]
        exact ⟨rfl, rfl⟩
      · unfold acceptTask at hacc
        injection hacc with h
        rw [← h]
        exact ⟨rfl, rfl⟩

/-- Witness for the amended C8: `expected_duration = 60` (below 300) is
rejected with the duration code, and a plain valid body is accepted as a
pending task. -/
theorem c8_submission_validation_witness :
    postTranscribe true
        { audio_url := some "http://a", language := none, chunk_duration := none,
          max_parallel := none, expected_duration := some 60 } =
      .rejected 400 (some "DURATION_TOO_SHORT") ∧
    (postTranscribe true
        { audio_url := some "http://a", language := none, chunk_duration := none,
          max_parallel := none, expected_duration := some 60 } =
          .rejected 400 none ∨
      postTranscribe true
        { audio_url := some "http://a", language := none, chunk_duration := none,
          max_parallel := none, expected_duration := some 60 } =
          .rejected 500 none ∨
      postTranscribe true
        { audio_url := some "http://a", language := none, chunk_duration := none,
          max_parallel := none, expected_duration := some 60 } =
          .rejected 400 (some "DURATION_TOO_SHORT")) :=
  ⟨by decide,
    (c8_submission_validation true _).1 60 rfl (by norm_num) (by norm_num)⟩

/-- Counterexample to C8 as stated: `expected_duration = 0` is supplied
and below 300, yet the submission is accepted (a task identifier is
issued) because `0` is falsy in the JavaScript guard
`expected_duration && expected_duration < MIN_DURATION_SECONDS`. -/
theorem c8_zero_duration_accepted_cex :
    (0 : ℚ) < 300 ∧
    postTranscribe true
        { audio_url := some "http://a", language := none, chunk_duration := none,
          max_parallel := none, expected_duration := some 0 } =
      .accepted
        { status := .pending, progress := 0, audio_url := "http://a",
          language := "auto", chunk_duration := none, max_parallel := 10 } :=
  ⟨by norm_num, by decide⟩

/-! ## Orchestrator `executeTranscriptionTask` (lines 1078–1255) -/

/-- Environment: outcomes of the external collaborators for one task.
`downloadOk` — the Resilient Fetcher's overall success; `probeOk` — the
`ffprobe` invocation; `totalDuration` — the probed duration;
`cutOk`/`cutSize` — per-index `ffmpeg` cut success and resulting size;
`whisper` — per-index transcription result (`none` = the API call threw). -/
structure OrchEnv where
  downloadOk : Bool
  probeOk : Bool
  totalDuration : ℚ
  cutOk : ℕ → Bool
  cutSize : ℕ → ℕ
  whisper : ℕ → Option String

/-- A snapshot whose only written fields are status and progress. -/
def baseSnap (st : Status) (p : ℤ) : Snapshot :=
  { status := st, progress := p, transcript := "", word_count := 0,
    successful_chunks := 0, error := none }

/-- The failure update of the catch block (lines 1239–1244): status
`failed`, progress reset to 0, error recorded. -/
def failSnap (e : TaskError) : Snapshot :=
  { status := .failed, progress := 0, transcript := "", word_count := 0,
    successful_chunks := 0, error := some e }

/-- Line 1123: the minutes/seconds interpolated into the
duration-too-short message (`Math.floor(d / 60)`, `Math.floor(d % 60)`). -/
def durationErr (d : ℚ) : TaskError :=
  .durationTooShort ⌊d / 60⌋ (⌊d⌋ - 60 * ⌊d / 60⌋)

/-- Line 1128: `task.chunk_duration || calculateOptimalChunkDuration(...)`
(`0` and `null` are falsy). -/
def chunkPlanOf (cd : Option ℚ) (dur : ℚ) : ℚ :=
  match cd with
  | some d => if d = 0 then ((calculateOptimalChunkDuration dur : ℤ) : ℚ) else d
  | none => ((calculateOptimalChunkDuration dur : ℤ) : ℚ)

/-- Line 1129: `chunkCount = Math.ceil(totalDuration / chunkDuration)`;
the `for` loop runs `max(chunkCount, 0)` times. -/
def chunkCountOf (cd : Option ℚ) (dur : ℚ) : ℕ :=
  (⌈dur / chunkPlanOf cd dur⌉).toNat

/-- The split loop (lines 1137–1163): chunk `i` survives iff its cut
succeeded and its size is within the Whisper upload ceiling. -/
def keptChunks (env : OrchEnv) (chunkDuration : ℚ) (chunkCount : ℕ) : List AudioChunk :=
  (List.range chunkCount).filterMap (fun i =>
    if env.cutOk i = true ∧ env.cutSize i ≤ MAX_WHISPER_SIZE then
      some { index := i
             start_time := (i : ℚ) * chunkDuration
             duration := min chunkDuration (env.totalDuration - (i : ℚ) * chunkDuration)
             size := env.cutSize i }
    else none)

/-- Lines 1180–1188: a chunk's Whisper call either returns text or its
error is caught and becomes `{index, text: "", success: false}`. -/
def chunkResult (env : OrchEnv) (c : AudioChunk) : ChunkOutcome :=
  match env.whisper c.index with
  | some t => { index := c.index, text := t, success := true }
  | none => { index := c.index, text := "", success := false }

/-- JavaScript `Array.prototype.slice` index conversion: negative indices
count from the end, then both are clamped into `[0, length]`. -/
def jsClampIndex (len : ℕ) (x : ℤ) : ℤ :=
  if x < 0 then max ((len : ℤ) + x) 0 else min x (len : ℤ)

/-- JavaScript `l.slice(s, e)`. -/
def jsSlice {α : Type} (l : List α) (s e : ℤ) : List α :=
  (l.take (jsClampIndex l.length e).toNat).drop (jsClampIndex l.length s).toNat

/-- The batch loop (lines 1176–1201), fuel-bounded because the source
loop `for (i = 0; i < chunks.length; i += max_parallel)` diverges for
non-positive `max_parallel`.  Returns the progress updates emitted after
each batch and — if the loop exited within `fuel` iterations — the
accumulated outcome list.  The emitted progress is
`30 + Math.floor(completedChunks / chunks.length * 60)` where
`completedChunks` always equals `transcripts.length`. -/
def transLoop (env : OrchEnv) (chunks : List AudioChunk) (mp : ℤ) :
    ℕ → ℤ → List ChunkOutcome → List Snapshot × Option (List ChunkOutcome)
  | 0, _, _ => ([], none)
  | fuel + 1, i, acc =>
    if i < (chunks.length : ℤ) then
      let batch := jsSlice chunks i (i + mp)
      let acc2 := acc ++ batch.map (chunkResult env)
      let rest := transLoop env chunks mp fuel (i + mp) acc2
      (baseSnap .transcribing (30 + ((60 * acc2.length / chunks.length : ℕ) : ℤ)) :: rest.1,
        rest.2)
    else ([], some acc)

/-- The same loop viewed as the list of batches it slices. -/
def batchRun (chunks : List AudioChunk) (mp : ℤ) : ℕ → ℤ → Option (List (List AudioChunk))
  | 0, _ => none
  | fuel + 1, i =>
    if i < (chunks.length : ℤ) then
      (batchRun chunks mp fuel (i + mp)).map (fun bs => jsSlice chunks i (i + mp) :: bs)
    else some []

/-- The completion update (lines 1219–1233). -/
def completedSnap (transcripts : List ChunkOutcome) : Snapshot :=
  { status := .completed, progress := 100,
    transcript := (assemblePipeline transcripts).1,
    word_count := (assemblePipeline transcripts).2.1,
    successful_chunks := (assemblePipeline transcripts).2.2,
    error := none }

/-- Stage 4–6 of the pipeline: the `transcribing` update (line 1169), the
per-batch updates, and — if the batch loop finishes — assembly and the
`completed` update. -/
def transcribePhase (env : OrchEnv) (chunks : List AudioChunk) (mp : ℤ) (fuel : ℕ) :
    List Snapshot :=
  baseSnap .transcribing 30 ::
    ((transLoop env chunks mp fuel 0 []).1 ++
      (match (transLoop env chunks mp fuel 0 []).2 with
       | none => []
       | some ts => [completedSnap ts]))

/-- The split-stage updates (lines 1134, 1160–1162): the `splitting`
update at progress 20 and one update per planned chunk at
`20 + Math.floor(i / chunkCount * 10)`. -/
def splitSnaps (cc : ℕ) : List Snapshot :=
  (List.range cc).map (fun i => baseSnap .splitting (20 + ((10 * i / cc : ℕ) : ℤ)))

/-- Stages 3–6 (lines 1126–1233), entered once the duration check passed. -/
def splitPhase (cd : Option ℚ) (mp : ℤ) (env : OrchEnv) (fuel : ℕ) : List Snapshot :=
  baseSnap .splitting 20 ::
    (splitSnaps (chunkCountOf cd env.totalDuration) ++
      transcribePhase env
        (keptChunks env (chunkPlanOf cd env.totalDuration) (chunkCountOf cd env.totalDuration))
        mp fuel)

/-- The full sequence of task-record snapshots written for one task:
the initial `pending` record created by `POST /transcribe` followed by
every `updateTask` call of `executeTranscriptionTask`, for a task whose
stored chunk duration is `cd` and stored parallelism is `mp`. -/
def runTask (cd : Option ℚ) (mp : ℤ) (env : OrchEnv) (fuel : ℕ) : List Snapshot :=
  baseSnap .pending 0 :: baseSnap .downloading 5 ::
    (if env.downloadOk = false then [failSnap .downloadFailed]
     else baseSnap .downloading 15 ::
       (if env.probeOk = false then [failSnap .probeFailed]
        else if env.totalDuration < MIN_DURATION_SECONDS then
          [failSnap (durationErr env.totalDuration)]
        else splitPhase cd mp env fuel))

/-- The transition relation of the spec's state machine (§4.4): stay in
place, advance one pipeline stage, or fail from any non-terminal state. -/
def StepOk : Status → Status → Prop := fun a b =>
  a = b ∨
  (a = .pending ∧ b = .downloading) ∨
  (a = .downloading ∧ b = .splitting) ∨
  (a = .splitting ∧ b = .transcribing) ∨
  (a = .transcribing ∧ b = .completed) ∨
  (a ≠ .completed ∧ a ≠ .failed ∧ b = .failed)

/-! ## Batch-loop arithmetic -/

theorem mem_of_getLast?_mem {α : Type} {l : List α} {x : α} (h : x ∈ l.getLast?) : x ∈ l := by
  obtain ⟨hne, rfl⟩ := List.mem_getLast?_eq_getLast h
  exact List.getLast_mem hne

theorem jsClampIndex_nonneg (len : ℕ) (x : ℤ) : 0 ≤ jsClampIndex len x := by
  unfold jsClampIndex
  split <;> omega

theorem jsClampIndex_le (len : ℕ) (x : ℤ) : jsClampIndex len x ≤ (len : ℤ) := by
  unfold jsClampIndex
  split <;> omega

theorem jsSlice_length {α : Type} (l : List α) (s e : ℤ) :
    (jsSlice l s e).length =
      (jsClampIndex l.length e).toNat - (jsClampIndex l.length s).toNat := by
  have h1 := jsClampIndex_le l.length e
  unfold jsSlice
  rw [List.length_drop, List.length_take]
  omega

/-- Invariant of the batch loop relating the loop index and the number of
accumulated outcomes: for positive `max_parallel` the accumulator tracks
the clamped index exactly; for non-positive `max_parallel` the index never
becomes positive, and once it goes negative every further slice is empty. -/
def LoopInv (len : ℕ) (mp i : ℤ) (aLen : ℕ) : Prop :=
  (1 ≤ mp ∧ 0 ≤ i ∧ aLen = min i.toNat len) ∨
  (mp ≤ 0 ∧ aLen ≤ len ∧ i ≤ 0 ∧ (i = 0 → aLen = 0))

theorem LoopInv_init (len : ℕ) (mp : ℤ) : LoopInv len mp 0 0 := by
  rcases le_or_lt mp 0 with h | h
  · exact Or.inr ⟨h, by omega, le_rfl, fun _ => rfl⟩
  · exact Or.inl ⟨h, le_rfl, by simp⟩

theorem LoopInv_step {α : Type} (l : List α) (mp i : ℤ) (aLen : ℕ)
    (hinv : LoopInv l.length mp i aLen) (hi : i < (l.length : ℤ)) :
    aLen + (jsSlice l i (i + mp)).length ≤ l.length ∧
    LoopInv l.length mp (i + mp) (aLen + (jsSlice l i (i + mp)).length) := by
  rw [jsSlice_length]
  unfold LoopInv at *
  unfold jsClampIndex
  rcases hinv with ⟨h1, h2, h3⟩ | ⟨h1, h2, h3, h4⟩
  · rw [if_neg (by omega), if_neg (by omega)]
    exact ⟨by omega, Or.inl ⟨h1, by omega, by omega⟩⟩
  · rcases eq_or_lt_of_le h3 with rfl | hneg
    · have h0 : aLen = 0 := h4 rfl
      by_cases hmp0 : mp = 0
      · subst hmp0
        rw [if_neg (by omega), if_neg (by omega)]
        exact ⟨by omega, Or.inr ⟨h1, by omega, by omega, by omega⟩⟩
      · rw [if_pos (by omega), if_neg (by omega)]
        exact ⟨by omega, Or.inr ⟨h1, by omega, by omega, by omega⟩⟩
    · rw [if_pos (by omega), if_pos (by omega)]
      exact ⟨by omega, Or.inr ⟨h1, by omega, by omega, by omega⟩⟩

theorem div_sixty_mono (a b len : ℕ) (h : a ≤ b) : 60 * a / len ≤ 60 * b / len :=
  Nat.div_le_div_right (Nat.mul_le_mul_left 60 h)

theorem div_sixty_le (a len : ℕ) (h : a ≤ len) : 60 * a / len ≤ 60 := by
  rcases Nat.eq_zero_or_pos len with h0 | h0
  · subst h0
    simp_all
  · calc 60 * a / len ≤ 60 * len / len := Nat.div_le_div_right (by omega)
    _ = 60 := Nat.mul_div_cancel _ h0

/-- Every update emitted by the batch loop keeps status `transcribing`,
leaves the result fields untouched, carries a progress value in `[30, 90]`
at least as large as the progress of the batch already accumulated, and
the emitted progress sequence is non-decreasing. -/
theorem transLoop_facts (env : OrchEnv) (chunks : List AudioChunk) (mp : ℤ) :
    ∀ (fuel : ℕ) (i : ℤ) (acc : List ChunkOutcome),
      LoopInv chunks.length mp i acc.length →
      (∀ r ∈ (transLoop env chunks mp fuel i acc).1,
        r.status = .transcribing ∧ r.transcript = "" ∧ r.word_count = 0 ∧
        r.successful_chunks = 0 ∧ r.error = none ∧
        30 + ((60 * acc.length / chunks.length : ℕ) : ℤ) ≤ r.progress ∧
        r.progress ≤ 90) ∧
      List.Chain' (fun a b => a.progress ≤ b.progress)
        (transLoop env chunks mp fuel i acc).1 := by
  intro fuel
  induction fuel with
  | zero =>
    intro i acc _
    simp [transLoop]
  | succ f ih =>
    intro i acc hinv
    by_cases hi : i < (chunks.length : ℤ)
    · have hstep := LoopInv_step chunks mp i acc.length hinv hi
      have hlen2 : (acc ++ (jsSlice chunks i (i + mp)).map (chunkResult env)).length =
          acc.length + (jsSlice chunks i (i + mp)).length := by
        rw [List.length_append, List.length_map]
      have hmono : 30 + ((60 * acc.length / chunks.length : ℕ) : ℤ) ≤
          30 + ((60 * (acc ++ (jsSlice chunks i (i + mp)).map (chunkResult env)).length /
            chunks.length : ℕ) : ℤ) := by
        have := div_sixty_mono acc.length
          (acc ++ (jsSlice chunks i (i + mp)).map (chunkResult env)).length
          chunks.length (by rw [hlen2]; omega)
        omega
      have hup : ((60 * (acc ++ (jsSlice chunks i (i + mp)).map (chunkResult env)).length /
          chunks.length : ℕ) : ℤ) ≤ 60 := by
        have := div_sixty_le
          (acc ++ (jsSlice chunks i (i + mp)).map (chunkResult env)).length
          chunks.length (by rw [hlen2]; exact hstep.1)
        omega
      have hinv2 : LoopInv chunks.length mp (i + mp)
          (acc ++ (jsSlice chunks i (i + mp)).map (chunkResult env)).length := by
        rw [hlen2]
        exact hstep.2
      obtain ⟨ihmem, ihchain⟩ :=
        ih (i + mp) (acc ++ (jsSlice chunks i (i + mp)).map (chunkResult env)) hinv2
      simp only [transLoop]
      rw [if_pos hi]
      dsimp only
      constructor
      · intro r hr
        rcases List.mem_cons.mp hr with rfl | hr2
        · exact ⟨rfl, rfl, rfl, rfl, rfl, hmono, by simp only [baseSnap]; omega⟩
        · obtain ⟨ha, hb, hc, hd, he, hf, hg⟩ := ihmem r hr2
          exact ⟨ha, hb, hc, hd, he, le_trans hmono hf, hg⟩
      · rw [List.chain'_cons']
        constructor
        · intro y hy
          have := (ihmem y (List.mem_of_mem_head? hy)).2.2.2.2.2.1
          simp only [baseSnap]
          omega
        · exact ihchain
    · simp only [transLoop]
      rw [if_neg hi]
      simp

theorem jsSlice_append_drop {α : Type} (l : List α) (i mp : ℤ) (h0 : 0 ≤ i)
    (hi : i < (l.length : ℤ)) (hmp : 1 ≤ mp) :
    jsSlice l i (i + mp) ++ l.drop (i + mp).toNat = l.drop i.toNat := by
  have hs : jsClampIndex l.length i = i := by
    unfold jsClampIndex
    rw [if_neg (by omega)]
    omega
  have he0 : 0 ≤ jsClampIndex l.length (i + mp) := jsClampIndex_nonneg _ _
  have he1 : jsClampIndex l.length (i + mp) ≤ (l.length : ℤ) := jsClampIndex_le _ _
  have he2 : i ≤ jsClampIndex l.length (i + mp) := by
    unfold jsClampIndex
    rw [if_neg (by omega)]
    omega
  have hdrop : l.drop (i + mp).toNat = l.drop (jsClampIndex l.length (i + mp)).toNat := by
    rcases le_or_lt (i + mp) (l.length : ℤ) with hc | hc
    · have : jsClampIndex l.length (i + mp) = i + mp := by
        unfold jsClampIndex
        rw [if_neg (by omega)]
        omega
      rw [this]
    · have h1 : jsClampIndex l.length (i + mp) = (l.length : ℤ) := by
        unfold jsClampIndex
        rw [if_neg (by omega)]
        omega
      rw [h1, List.drop_eq_nil_of_le (by omega), List.drop_eq_nil_of_le (by omega)]
  rw [hdrop]
  unfold jsSlice
  rw [hs, List.drop_take]
  rw [show l.drop (jsClampIndex l.length (i + mp)).toNat =
    ((l.drop i.toNat).drop ((jsClampIndex l.length (i + mp)).toNat - i.toNat)) by
      rw [List.drop_drop]
      congr 1
      omega]
  exact List.take_append_drop _ _

/-- With positive `max_parallel`, fuel `chunks.length + 1` is enough for
the batch loop, and the outcomes are exactly one per chunk, in order. -/
theorem transLoop_done (env : OrchEnv) (chunks : List AudioChunk) (mp : ℤ) (hmp : 1 ≤ mp) :
    ∀ (fuel : ℕ) (i : ℤ) (acc : List ChunkOutcome), 0 ≤ i → 1 ≤ fuel →
      (chunks.length : ℤ) < i + fuel →
      (transLoop env chunks mp fuel i acc).2 =
        some (acc ++ (chunks.drop i.toNat).map (chunkResult env)) := by
  intro fuel
  induction fuel with
  | zero =>
    intro i acc h0 h1 h2
    omega
  | succ f ih =>
    intro i acc h0 _ h2
    by_cases hi : i < (chunks.length : ℤ)
    · simp only [transLoop]
      rw [if_pos hi]
      dsimp only
      rw [ih (i + mp) _ (by omega) (by omega) (by omega)]
      rw [List.append_assoc, ← List.map_append, jsSlice_append_drop chunks i mp h0 hi hmp]
    · simp only [transLoop]
      rw [if_neg hi]
      dsimp only
      rw [List.drop_eq_nil_of_le (by omega), List.map_nil, List.append_nil]

/-- With non-positive `max_parallel` and at least one surviving chunk the
batch loop never exits: no amount of fuel makes it return outcomes. -/
theorem transLoop_stuck (env : OrchEnv) (chunks : List AudioChunk) (mp : ℤ)
    (hmp : mp ≤ 0) (hne : chunks ≠ []) :
    ∀ (fuel : ℕ) (i : ℤ), i ≤ 0 → ∀ acc,
      (transLoop env chunks mp fuel i acc).2 = none := by
  intro fuel
  induction fuel with
  | zero =>
    intro i hi acc
    rfl
  | succ f ih =>
    intro i hi acc
    have hlen : 1 ≤ chunks.length := List.length_pos.mpr hne
    simp only [transLoop]
    rw [if_pos (by omega)]
    dsimp only
    exact ih (i + mp) (by omega) _

theorem batchRun_complete (chunks : List AudioChunk) (mp : ℤ) (hmp : 1 ≤ mp) :
    ∀ (fuel : ℕ) (i : ℤ), 0 ≤ i → 1 ≤ fuel → (chunks.length : ℤ) < i + fuel →
      ∃ bs, batchRun chunks mp fuel i = some bs ∧
        bs.flatten = chunks.drop i.toNat ∧ ∀ b ∈ bs, b.length ≤ mp.toNat := by
  intro fuel
  induction fuel with
  | zero =>
    intro i h0 h1 h2
    omega
  | succ f ih =>
    intro i h0 _ h2
    by_cases hi : i < (chunks.length : ℤ)
    · obtain ⟨bs, hbs, hjoin, hmem⟩ := ih (i + mp) (by omega) (by omega) (by omega)
      refine ⟨jsSlice chunks i (i + mp) :: bs, ?_, ?_, ?_⟩
      · simp only [batchRun]
        rw [if_pos hi, hbs]
        rfl
      · rw [show (jsSlice chunks i (i + mp) :: bs).flatten =
            jsSlice chunks i (i + mp) ++ bs.flatten from rfl]
        rw [hjoin, jsSlice_append_drop chunks i mp h0 hi hmp]
      · intro b hb
        rcases List.mem_cons.mp hb with rfl | hb2
        · rw [jsSlice_length]
          have hcs : jsClampIndex chunks.length i = i := by
            unfold jsClampIndex
            rw [if_neg (by omega)]
            omega
          have hce : jsClampIndex chunks.length (i + mp) ≤ i + mp := by
            unfold jsClampIndex
            rw [if_neg (by omega)]
            omega
          have hce0 : 0 ≤ jsClampIndex chunks.length (i + mp) := jsClampIndex_nonneg _ _
          rw [hcs]
          omega
        · exact hmem b hb2
    · refine ⟨[], ?_, ?_, by simp⟩
      · simp only [batchRun]
        rw [if_neg hi]
      · rw [List.drop_eq_nil_of_le (by omega)]
        rfl

theorem keptChunks_eq_nil (env : OrchEnv) (cdur : ℚ) (cc : ℕ)
    (hdrop : ∀ i, env.cutOk i = false ∨ MAX_WHISPER_SIZE < env.cutSize i) :
    keptChunks env cdur cc = [] := by
  unfold keptChunks
  rw [List.filterMap_eq_nil_iff]
  intro i _
  rcases hdrop i with h | h
  · rw [if_neg]
    intro hcon
    rw [h] at hcon
    exact Bool.false_ne_true hcon.1
  · rw [if_neg]
    intro hcon
    omega

/-! ## Trace chain lemmas -/

/-- The per-update relation combining everything the trace claims need:
statuses move along the §4.4 machine, an update is performed only while
the record is non-terminal, and progress is non-decreasing except at the
failure transition, which resets it to 0. -/
def OrchStep (a b : Snapshot) : Prop :=
  StepOk a.status b.status ∧ a.status ≠ .completed ∧ a.status ≠ .failed ∧
  (b.status = .failed ∨ a.progress ≤ b.progress)

theorem chain'_mono_mem {α : Type} {R S : α → α → Prop} {P : α → Prop} :
    ∀ {l : List α}, (∀ x ∈ l, P x) → List.Chain' R l →
      (∀ a b, P a → P b → R a b → S a b) → List.Chain' S l := by
  intro l
  induction l with
  | nil =>
    intro _ _ _
    exact List.chain'_nil
  | cons x xs ih =>
    intro hP hchain himp
    rcases xs with _ | ⟨y, ys⟩
    · exact List.chain'_singleton x
    · rw [List.chain'_cons] at hchain ⊢
      exact ⟨himp x y (hP x (by simp)) (hP y (by simp)) hchain.1,
        ih (fun z hz => hP z (List.mem_cons_of_mem x hz)) hchain.2 himp⟩

theorem transcribePhase_facts (env : OrchEnv) (chunks : List AudioChunk) (mp : ℤ)
    (fuel : ℕ) :
    List.Chain' OrchStep (transcribePhase env chunks mp fuel) ∧
    (∀ r ∈ transcribePhase env chunks mp fuel,
      (r.status = .transcribing ∨ r.status = .completed) ∧
      30 ≤ r.progress ∧ r.progress ≤ 100) ∧
    (transcribePhase env chunks mp fuel).head? = some (baseSnap .transcribing 30) := by
  obtain ⟨hmem, hchain⟩ := transLoop_facts env chunks mp fuel 0 []
    (LoopInv_init chunks.length mp)
  have hmem2 : ∀ r ∈ (transLoop env chunks mp fuel 0 []).1,
      r.status = .transcribing ∧ 30 ≤ r.progress ∧ r.progress ≤ 90 := by
    intro r hr
    obtain ⟨h1, _, _, _, _, h6, h7⟩ := hmem r hr
    refine ⟨h1, ?_, h7⟩
    simpa using h6
  have htailmem : ∀ r ∈ ((transLoop env chunks mp fuel 0 []).1 ++
      (match (transLoop env chunks mp fuel 0 []).2 with
       | none => []
       | some ts => [completedSnap ts])),
      (r.status = .transcribing ∨ r.status = .completed) ∧
      30 ≤ r.progress ∧ r.progress ≤ 100 := by
    intro r hr
    rcases List.mem_append.mp hr with hr1 | hr2
    · obtain ⟨h1, h2, h3⟩ := hmem2 r hr1
      exact ⟨Or.inl h1, h2, by omega⟩
    · rcases hres : (transLoop env chunks mp fuel 0 []).2 with _ | ts
      · rw [hres] at hr2
        simp at hr2
      · rw [hres] at hr2
        rcases List.mem_singleton.mp hr2 with rfl
        exact ⟨Or.inr rfl, by norm_num [completedSnap], by norm_num [completedSnap]⟩
  constructor
  · unfold transcribePhase
    rw [List.chain'_cons']
    constructor
    · intro y hy
      obtain ⟨hst, hp, _⟩ := htailmem y (List.mem_of_mem_head? hy)
      refine ⟨?_, by simp [baseSnap], by simp [baseSnap], Or.inr ?_⟩
      · rcases hst with h | h
        · exact Or.inl (by rw [h]; rfl)
        · exact Or.inr (Or.inr (Or.inr (Or.inr (Or.inl ⟨rfl, h⟩))))
      · simpa [baseSnap] using hp
    · rw [List.chain'_append]
      refine ⟨?_, ?_, ?_⟩
      · exact chain'_mono_mem hmem2 hchain
          (fun a b pa pb hr =>
            ⟨Or.inl (by rw [pa.1, pb.1]), by rw [pa.1]; simp, by rw [pa.1]; simp,
              Or.inr hr⟩)
      · rcases (transLoop env chunks mp fuel 0 []).2 with _ | ts
        · exact List.chain'_nil
        · exact List.chain'_singleton _
      · intro x hx y hy
        obtain ⟨hx1, hx2, hx3⟩ := hmem2 x (mem_of_getLast?_mem hx)
        rcases hres : (transLoop env chunks mp fuel 0 []).2 with _ | ts
        · rw [hres] at hy
          simp at hy
        · rw [hres] at hy
          have hy2 := List.mem_singleton.mp (List.mem_of_mem_head? hy)
          subst hy2
          refine ⟨Or.inr (Or.inr (Or.inr (Or.inr (Or.inl ⟨hx1, rfl⟩)))),
            by rw [hx1]; simp, by rw [hx1]; simp, Or.inr ?_⟩
          have : (completedSnap ts).progress = 100 := rfl
          omega
  · constructor
    · intro r hr
      unfold transcribePhase at hr
      rcases List.mem_cons.mp hr with rfl | hr2
      · exact ⟨Or.inl rfl, by simp [baseSnap], by simp [baseSnap]⟩
      · exact htailmem r hr2
    · rfl

theorem splitSnaps_mem (cc : ℕ) (r : Snapshot) (hr : r ∈ splitSnaps cc) :
    r.status = .splitting ∧ 20 ≤ r.progress ∧ r.progress ≤ 29 := by
  unfold splitSnaps at hr
  obtain ⟨i, hi, rfl⟩ := List.mem_map.mp hr
  rw [List.mem_range] at hi
  have hcc : 0 < cc := by omega
  have hdiv : 10 * i / cc < 10 := by
    rw [Nat.div_lt_iff_lt_mul hcc]
    omega
  refine ⟨rfl, ?_, ?_⟩
  · show (20 : ℤ) ≤ 20 + ((10 * i / cc : ℕ) : ℤ)
    have h0 : (0 : ℤ) ≤ ((10 * i / cc : ℕ) : ℤ) := Int.ofNat_nonneg _
    linarith
  · show 20 + ((10 * i / cc : ℕ) : ℤ) ≤ 29
    have h9 : ((10 * i / cc : ℕ) : ℤ) ≤ 9 := by
      exact_mod_cast Nat.lt_succ_iff.mp hdiv
    linarith

theorem splitSnaps_chain (cc : ℕ) :
    List.Chain' (fun a b : Snapshot => a.progress ≤ b.progress) (splitSnaps cc) := by
  unfold splitSnaps
  rw [List.chain'_map]
  rcases cc with _ | n
  · exact List.chain'_nil
  · rw [List.chain'_range_succ]
    intro m hm
    show (20 + ((10 * m / (n + 1) : ℕ) : ℤ)) ≤ 20 + ((10 * m.succ / (n + 1) : ℕ) : ℤ)
    have hd : (10 * m / (n + 1) : ℕ) ≤ 10 * m.succ / (n + 1) :=
      Nat.div_le_div_right (by omega)
    have hc : ((10 * m / (n + 1) : ℕ) : ℤ) ≤ ((10 * m.succ / (n + 1) : ℕ) : ℤ) := by
      exact_mod_cast hd
    linarith

theorem splitPhase_facts (cd : Option ℚ) (mp : ℤ) (env : OrchEnv) (fuel : ℕ) :
    List.Chain' OrchStep (splitPhase cd mp env fuel) ∧
    (∀ r ∈ splitPhase cd mp env fuel,
      0 ≤ r.progress ∧ r.progress ≤ 100 ∧ r.status ≠ .failed) ∧
    (splitPhase cd mp env fuel).head? = some (baseSnap .splitting 20) := by
  obtain ⟨tchain, tmem, thead⟩ := transcribePhase_facts env
    (keptChunks env (chunkPlanOf cd env.totalDuration) (chunkCountOf cd env.totalDuration))
    mp fuel
  refine ⟨?_, ?_, rfl⟩
  · unfold splitPhase
    rw [List.chain'_cons']
    constructor
    · intro y hy
      rcases List.mem_append.mp (List.mem_of_mem_head? hy) with hy1 | hy2
      · obtain ⟨h1, h2, _⟩ := splitSnaps_mem _ y hy1
        exact ⟨Or.inl (by rw [h1]; rfl), by simp [baseSnap], by simp [baseSnap],
          Or.inr (by simp only [baseSnap]; omega)⟩
      · -- the head of the appended list lies in `transcribePhase` only when
        -- `splitSnaps` is empty, and then it is its head, `transcribing 30`
        rcases hsp : splitSnaps (chunkCountOf cd env.totalDuration) with _ | ⟨s, ss⟩
        · rw [hsp] at hy
          simp only [List.nil_append] at hy
          rw [thead] at hy
          have hy2 := Option.mem_def.mp hy
          cases hy2
          exact ⟨Or.inr (Or.inr (Or.inr (Or.inl ⟨rfl, rfl⟩))), by simp [baseSnap],
            by simp [baseSnap], Or.inr (by simp [baseSnap])⟩
        · rw [hsp] at hy
          simp only [List.cons_append, List.head?_cons, Option.mem_def,
            Option.some.injEq] at hy
          subst hy
          obtain ⟨h1, h2, _⟩ := splitSnaps_mem _ s (by rw [hsp]; exact List.mem_cons_self s ss)
          exact ⟨Or.inl (by rw [h1]; rfl), by simp [baseSnap], by simp [baseSnap],
            Or.inr (by simp only [baseSnap]; omega)⟩
    · rw [List.chain'_append]
      refine ⟨?_, tchain, ?_⟩
      · refine chain'_mono_mem (P := fun r =>
          r.status = .splitting ∧ 20 ≤ r.progress ∧ r.progress ≤ 29)
          (splitSnaps_mem _) (splitSnaps_chain _) ?_
        intro a b pa pb hr
        exact ⟨Or.inl (by rw [pa.1, pb.1]), by rw [pa.1]; simp, by rw [pa.1]; simp,
          Or.inr hr⟩
      · intro x hx y hy
        obtain ⟨hx1, _, hx3⟩ := splitSnaps_mem _ x (mem_of_getLast?_mem hx)
        rw [thead] at hy
        have hy2 := Option.mem_def.mp hy
        cases hy2
        exact ⟨Or.inr (Or.inr (Or.inr (Or.inl ⟨hx1, rfl⟩))), by rw [hx1]; simp,
          by rw [hx1]; simp, Or.inr (by simp only [baseSnap]; omega)⟩
  · intro r hr
    unfold splitPhase at hr
    rcases List.mem_cons.mp hr with rfl | hr2
    · exact ⟨by simp [baseSnap], by simp [baseSnap], by simp [baseSnap]⟩
    · rcases List.mem_append.mp hr2 with hr3 | hr4
      · obtain ⟨h1, h2, h3⟩ := splitSnaps_mem _ r hr3
        exact ⟨by omega, by omega, by rw [h1]; simp⟩
      · obtain ⟨h1, h2, h3⟩ := tmem r hr4
        refine ⟨by omega, h3, ?_⟩
        rcases h1 with h | h <;> rw [h] <;> simp

theorem runTask_facts (cd : Option ℚ) (mp : ℤ) (env : OrchEnv) (fuel : ℕ) :
    List.Chain' OrchStep (runTask cd mp env fuel) ∧
    ∀ r ∈ runTask cd mp env fuel, 0 ≤ r.progress ∧ r.progress ≤ 100 := by
  obtain ⟨schain, smem, shead⟩ := splitPhase_facts cd mp env fuel
  unfold runTask
  by_cases hd : env.downloadOk = false
  · rw [if_pos hd]
    constructor
    · refine List.Chain'.cons ?_ (List.Chain'.cons ?_ (List.chain'_singleton _))
      · exact ⟨Or.inr (Or.inl ⟨rfl, rfl⟩), by simp [baseSnap], by simp [baseSnap],
          Or.inr (by simp [baseSnap])⟩
      · exact ⟨Or.inr (Or.inr (Or.inr (Or.inr (Or.inr ⟨by simp [baseSnap], by simp [baseSnap], rfl⟩)))),
          by simp [baseSnap], by simp [baseSnap], Or.inl rfl⟩
    · intro r hr
      rcases List.mem_cons.mp hr with rfl | hr
      · simp [baseSnap]
      rcases List.mem_cons.mp hr with rfl | hr
      · simp [baseSnap]
      rcases List.mem_singleton.mp hr with rfl
      simp [failSnap]
  · rw [if_neg hd]
    by_cases hp : env.probeOk = false
    · rw [if_pos hp]
      constructor
      · refine List.Chain'.cons ?_ (List.Chain'.cons ?_ (List.Chain'.cons ?_
          (List.chain'_singleton _)))
        · exact ⟨Or.inr (Or.inl ⟨rfl, rfl⟩), by simp [baseSnap], by simp [baseSnap],
            Or.inr (by simp [baseSnap])⟩
        · exact ⟨Or.inl rfl, by simp [baseSnap], by simp [baseSnap],
            Or.inr (by simp [baseSnap])⟩
        · exact ⟨Or.inr (Or.inr (Or.inr (Or.inr (Or.inr ⟨by simp [baseSnap], by simp [baseSnap], rfl⟩)))),
            by simp [baseSnap], by simp [baseSnap], Or.inl rfl⟩
      · intro r hr
        rcases List.mem_cons.mp hr with rfl | hr
        · simp [baseSnap]
        rcases List.mem_cons.mp hr with rfl | hr
        · simp [baseSnap]
        rcases List.mem_cons.mp hr with rfl | hr
        · simp [baseSnap]
        rcases List.mem_singleton.mp hr with rfl
        simp [failSnap]
    · rw [if_neg hp]
      by_cases hdur : env.totalDuration < MIN_DURATION_SECONDS
      · rw [if_pos hdur]
        constructor
        · refine List.Chain'.cons ?_ (List.Chain'.cons ?_ (List.Chain'.cons ?_
            (List.chain'_singleton _)))
          · exact ⟨Or.inr (Or.inl ⟨rfl, rfl⟩), by simp [baseSnap], by simp [baseSnap],
              Or.inr (by simp [baseSnap])⟩
          · exact ⟨Or.inl rfl, by simp [baseSnap], by simp [baseSnap],
              Or.inr (by simp [baseSnap])⟩
          · exact ⟨Or.inr (Or.inr (Or.inr (Or.inr (Or.inr ⟨by simp [baseSnap], by simp [baseSnap], rfl⟩)))),
              by simp [baseSnap], by simp [baseSnap], Or.inl rfl⟩
        · intro r hr
          rcases List.mem_cons.mp hr with rfl | hr
          · simp [baseSnap]
          rcases List.mem_cons.mp hr with rfl | hr
          · simp [baseSnap]
          rcases List.mem_cons.mp hr with rfl | hr
          · simp [baseSnap]
          rcases List.mem_singleton.mp hr with rfl
          simp [failSnap]
      · rw [if_neg hdur]
        constructor
        · rw [List.chain'_cons]
          refine ⟨⟨Or.inr (Or.inl ⟨rfl, rfl⟩), by simp [baseSnap], by simp [baseSnap],
            Or.inr (by simp [baseSnap])⟩, ?_⟩
          rw [List.chain'_cons]
          refine ⟨⟨Or.inl rfl, by simp [baseSnap], by simp [baseSnap],
            Or.inr (by simp [baseSnap])⟩, ?_⟩
          rw [List.chain'_cons']
          refine ⟨?_, schain⟩
          intro y hy
          rw [shead] at hy
          have hy2 := Option.mem_def.mp hy
          cases hy2
          exact ⟨Or.inr (Or.inr (Or.inl ⟨rfl, rfl⟩)), by simp [baseSnap],
            by simp [baseSnap], Or.inr (by simp [baseSnap])⟩
        · intro r hr
          rcases List.mem_cons.mp hr with rfl | hr
          · simp [baseSnap]
          rcases List.mem_cons.mp hr with rfl | hr
          · simp [baseSnap]
          rcases List.mem_cons.mp hr with rfl | hr
          · simp [baseSnap]
          obtain ⟨h1, h2, _⟩ := smem r hr
          exact ⟨h1, h2⟩

theorem runTask_short_duration_trace (cd : Option ℚ) (mp : ℤ) (env : OrchEnv) (fuel : ℕ)
    (hd : env.downloadOk = true) (hp : env.probeOk = true)
    (hdur : env.totalDuration < MIN_DURATION_SECONDS) :
    runTask cd mp env fuel =
      [baseSnap .pending 0, baseSnap .downloading 5, baseSnap .downloading 15,
        failSnap (durationErr env.totalDuration)] := by
  unfold runTask
  rw [if_neg (by rw [hd]; simp), if_neg (by rw [hp]; simp), if_pos hdur]

theorem runTask_splitting_gate (cd : Option ℚ) (mp : ℤ) (env : OrchEnv) (fuel : ℕ) :
    (∃ r ∈ runTask cd mp env fuel, r.status = .splitting) →
    env.downloadOk = true ∧ env.probeOk = true ∧
      MIN_DURATION_SECONDS ≤ env.totalDuration := by
  intro hex
  obtain ⟨r, hr, hst⟩ := hex
  unfold runTask at hr
  by_cases hd : env.downloadOk = false
  · rw [if_pos hd] at hr
    rcases List.mem_cons.mp hr with rfl | hr
    · exact absurd hst (by simp [baseSnap])
    rcases List.mem_cons.mp hr with rfl | hr
    · exact absurd hst (by simp [baseSnap])
    rcases List.mem_singleton.mp hr with rfl
    exact absurd hst (by simp [failSnap])
  · rw [if_neg hd] at hr
    by_cases hp : env.probeOk = false
    · rw [if_pos hp] at hr
      rcases List.mem_cons.mp hr with rfl | hr
      · exact absurd hst (by simp [baseSnap])
      rcases List.mem_cons.mp hr with rfl | hr
      · exact absurd hst (by simp [baseSnap])
      rcases List.mem_cons.mp hr with rfl | hr
      · exact absurd hst (by simp [baseSnap])
      rcases List.mem_singleton.mp hr with rfl
      exact absurd hst (by simp [failSnap])
    · rw [if_neg hp] at hr
      by_cases hdur : env.totalDuration < MIN_DURATION_SECONDS
      · rw [if_pos hdur] at hr
        rcases List.mem_cons.mp hr with rfl | hr
        · exact absurd hst (by simp [baseSnap])
        rcases List.mem_cons.mp hr with rfl | hr
        · exact absurd hst (by simp [baseSnap])
        rcases List.mem_cons.mp hr with rfl | hr
        · exact absurd hst (by simp [baseSnap])
        rcases List.mem_singleton.mp hr with rfl
        exact absurd hst (by simp [failSnap])
      · exact ⟨Bool.not_eq_false env.downloadOk |>.mp hd,
          Bool.not_eq_false env.probeOk |>.mp hp, not_lt.mp hdur⟩

/-! ## Claims C3, C6, C7, C10 -/

/-- Claim C3: every pair of consecutive task-record snapshots follows the
state machine `pending → downloading → splitting → transcribing →
completed` with `failed` reachable from any non-terminal state; a snapshot
followed by another one is never `completed` or `failed` (the terminal
states are left by no update); the `splitting` state is reached only when
download and probe succeeded and the probed duration is at least 300 s;
and a probed duration under 300 s makes the task fail directly from
`downloading` with the duration-too-short error, never entering
`splitting`. -/
theorem c3_state_machine (cd : Option ℚ) (mp : ℤ) (env : OrchEnv) (fuel : ℕ) :
    List.Chain' (fun a b : Snapshot => StepOk a.status b.status ∧
      a.status ≠ .completed ∧ a.status ≠ .failed) (runTask cd mp env fuel) ∧
    ((∃ r ∈ runTask cd mp env fuel, r.status = .splitting) →
      env.downloadOk = true ∧ env.probeOk = true ∧
        MIN_DURATION_SECONDS ≤ env.totalDuration) ∧
    (env.downloadOk = true → env.probeOk = true →
      env.totalDuration < MIN_DURATION_SECONDS →
      (runTask cd mp env fuel).getLast? =
          some (failSnap (durationErr env.totalDuration)) ∧
        ∀ r ∈ runTask cd mp env fuel, r.status ≠ .splitting) := by
  refine ⟨(runTask_facts cd mp env fuel).1.imp (fun _ _ h => ⟨h.1, h.2.1, h.2.2.1⟩),
    runTask_splitting_gate cd mp env fuel, ?_⟩

  intro hd hp hdur
  rw [runTask_short_duration_trace cd mp env fuel hd hp hdur]
  refine ⟨rfl, ?_⟩
  intro r hr
  rcases List.mem_cons.mp hr with rfl | hr
  · simp [baseSnap]
  rcases List.mem_cons.mp hr with rfl | hr
  · simp [baseSnap]
  rcases List.mem_cons.mp hr with rfl | hr
  · simp [baseSnap]
  rcases List.mem_singleton.mp hr with rfl
  simp [failSnap]

/-- An environment whose probe reports a 0-second file (below the 300 s
minimum): download and probe succeed and the task then fails. -/
def envShort : OrchEnv :=
  { downloadOk := true, probeOk := true, totalDuration := 0,
    cutOk := fun _ => false, cutSize := fun _ => 0, whisper := fun _ => none }

/-- Witness for C3: the short-duration branch at the concrete `envShort`. -/
theorem c3_state_machine_witness :
    (runTask none 10 envShort 1).getLast? =
        some (failSnap (durationErr envShort.totalDuration)) ∧
    ∀ r ∈ runTask none 10 envShort 1, r.status ≠ .splitting :=
  (c3_state_machine none 10 envShort 1).2.2 rfl rfl
    (by norm_num [envShort, MIN_DURATION_SECONDS])

/-- Claim C7, amended: the progress field always stays in `[0, 100]`, and
progress is monotonically non-decreasing across every update except the
one that transitions the task to `failed`, which resets progress to 0
(the amendment is forced by line 1241 of the source: the failure update
writes `progress: 0` even when progress had already advanced). -/
theorem c7_progress_bounds_monotone (cd : Option ℚ) (mp : ℤ) (env : OrchEnv) (fuel : ℕ) :
    (∀ r ∈ runTask cd mp env fuel, 0 ≤ r.progress ∧ r.progress ≤ 100) ∧
    List.Chain' (fun a b : Snapshot => b.status = .failed ∨ a.progress ≤ b.progress)
      (runTask cd mp env fuel) :=
  ⟨(runTask_facts cd mp env fuel).2,
    (runTask_facts cd mp env fuel).1.imp (fun _ _ h => h.2.2.2)⟩

/-- Counterexample to C7 as stated: in a run whose probe reports a
too-short file, progress advances 0 → 5 → 15 and the failure update then
writes progress 0, so the written progress sequence is not monotonically
non-decreasing. -/
theorem c7_progress_monotone_cex :
    ¬ List.Chain' (fun a b : Snapshot => a.progress ≤ b.progress)
      (runTask none 10 envShort 1) := by
  rw [runTask_short_duration_trace none 10 envShort 1 rfl rfl
    (by norm_num [envShort, MIN_DURATION_SECONDS])]
  intro h
  rw [List.chain'_cons, List.chain'_cons, List.chain'_cons] at h
  have h15 := h.2.2.1
  simp only [baseSnap, failSnap] at h15
  omega

/-- Witness for the amended C7 at the concrete `envShort`. -/
theorem c7_progress_bounds_monotone_witness :
    (∀ r ∈ runTask none 10 envShort 1, 0 ≤ r.progress ∧ r.progress ≤ 100) ∧
    List.Chain' (fun a b : Snapshot => b.status = .failed ∨ a.progress ≤ b.progress)
      (runTask none 10 envShort 1) :=
  c7_progress_bounds_monotone none 10 envShort 1

/-- Claim C6: when every chunk is dropped by the Splitter (cut failure or
oversized output), the task still enters `transcribing` and then reaches
`completed` — not `failed` — with an empty transcript, character count 0
and successful-chunk count 0. -/
theorem c6_zero_chunks_completes (cd : Option ℚ) (mp : ℤ) (env : OrchEnv) (fuel : ℕ)
    (hd : env.downloadOk = true) (hp : env.probeOk = true)
    (hdur : MIN_DURATION_SECONDS ≤ env.totalDuration)
    (hdrop : ∀ i, env.cutOk i = false ∨ MAX_WHISPER_SIZE < env.cutSize i)
    (hfuel : 1 ≤ fuel) :
    (∃ r ∈ runTask cd mp env fuel, r.status = .transcribing) ∧
    (runTask cd mp env fuel).getLast? =
      some { status := .completed, progress := 100, transcript := "", word_count := 0,
             successful_chunks := 0, error := none } := by
  have hkept : keptChunks env (chunkPlanOf cd env.totalDuration)
      (chunkCountOf cd env.totalDuration) = [] :=
    keptChunks_eq_nil env _ _ hdrop
  rcases fuel with _ | f
  · omega
  have hloop : transLoop env [] mp (f + 1) 0 [] = ([], some []) := by
    simp [transLoop]
  have htp : transcribePhase env ([] : List AudioChunk) mp (f + 1) =
      [baseSnap .transcribing 30, completedSnap []] := by
    unfold transcribePhase
    rw [hloop]
    rfl
  have hcomp : completedSnap [] =
      { status := .completed, progress := 100, transcript := "", word_count := 0,
        successful_chunks := 0, error := none } := by
    simp [completedSnap, assemblePipeline, sortByIndex]
    exact ⟨rfl, rfl⟩
  have htrace : runTask cd mp env (f + 1) =
      baseSnap .pending 0 :: baseSnap .downloading 5 :: baseSnap .downloading 15 ::
        baseSnap .splitting 20 ::
          (splitSnaps (chunkCountOf cd env.totalDuration) ++
            [baseSnap .transcribing 30, completedSnap []]) := by
    unfold runTask
    rw [if_neg (by rw [hd]; simp), if_neg (by rw [hp]; simp),
      if_neg (not_lt.mpr hdur)]
    unfold splitPhase
    rw [hkept, htp]
  rw [htrace]
  constructor
  · exact ⟨baseSnap .transcribing 30, by simp, rfl⟩
  · rw [hcomp] at htrace ⊢
    rw [show baseSnap .pending 0 :: baseSnap .downloading 5 :: baseSnap .downloading 15 ::
        baseSnap .splitting 20 ::
          (splitSnaps (chunkCountOf cd env.totalDuration) ++
            [baseSnap .transcribing 30,
              { status := .completed, progress := 100, transcript := "", word_count := 0,
                successful_chunks := 0, error := none }]) =
        (baseSnap .pending 0 :: baseSnap .downloading 5 :: baseSnap .downloading 15 ::
          baseSnap .splitting 20 :: splitSnaps (chunkCountOf cd env.totalDuration) ++
            [baseSnap .transcribing 30]) ++
          [{ status := .completed, progress := 100, transcript := "", word_count := 0,
             successful_chunks := 0, error := none }] by simp]
    rw [List.getLast?_concat]

/-- An environment where download and probe succeed on a 20-minute file
but every single cut fails, so zero chunks survive. -/
def envAllCutsFail : OrchEnv :=
  { downloadOk := true, probeOk := true, totalDuration := 1200,
    cutOk := fun _ => false, cutSize := fun _ => 0, whisper := fun _ => none }

/-- Witness for C6 at the concrete `envAllCutsFail`. -/
theorem c6_zero_chunks_completes_witness :
    (∃ r ∈ runTask none 10 envAllCutsFail 1, r.status = .transcribing) ∧
    (runTask none 10 envAllCutsFail 1).getLast? =
      some { status := .completed, progress := 100, transcript := "", word_count := 0,
             successful_chunks := 0, error := none } :=
  c6_zero_chunks_completes none 10 envAllCutsFail 1 rfl rfl
    (by norm_num [envAllCutsFail, MIN_DURATION_SECONDS]) (fun _ => Or.inl rfl) le_rfl

/-- Claim C10, amended: for a positive stored `max_parallel` (what the
endpoint stores for any positive integer request, clamped to at most 10)
the batch loop terminates within `chunks.length + 1` iterations,
partitions the surviving chunks into consecutive batches of at most 10,
and produces exactly one outcome per surviving chunk, in order.  The
amendment is forced by the counterexample below: the endpoint also
accepts negative values unchanged, and the loop then never terminates. -/
theorem c10_batch_partition (env : OrchEnv) (chunks : List AudioChunk) (mp : ℤ)
    (h1 : 1 ≤ mp) (h10 : mp ≤ 10) :
    (transLoop env chunks mp (chunks.length + 1) 0 []).2 =
      some (chunks.map (chunkResult env)) ∧
    ∃ bs, batchRun chunks mp (chunks.length + 1) 0 = some bs ∧
      bs.flatten = chunks ∧ ∀ b ∈ bs, b.length ≤ 10 := by
  constructor
  · have h := transLoop_done env chunks mp h1 (chunks.length + 1) 0 []
      le_rfl (by omega) (by omega)
    simpa using h
  · obtain ⟨bs, h2, h3, h4⟩ := batchRun_complete chunks mp h1 (chunks.length + 1) 0
      le_rfl (by omega) (by omega)
    exact ⟨bs, h2, by simpa using h3, fun b hb => le_trans (h4 b hb) (by omega)⟩

/-- An environment for exercising the batch loop on one surviving chunk. -/
def envOneChunk : OrchEnv :=
  { downloadOk := true, probeOk := true, totalDuration := 1200,
    cutOk := fun _ => true, cutSize := fun _ => 0, whisper := fun _ => some "ok" }

/-- Witness for the amended C10 with one chunk at the default
`max_parallel = 10`. -/
theorem c10_batch_partition_witness :
    (transLoop envOneChunk [⟨0, 0, 120, 0⟩] 10
        (([⟨0, 0, 120, 0⟩] : List AudioChunk).length + 1) 0 []).2 =
      some (([⟨0, 0, 120, 0⟩] : List AudioChunk).map (chunkResult envOneChunk)) ∧
    ∃ bs, batchRun [⟨0, 0, 120, 0⟩] 10
        (([⟨0, 0, 120, 0⟩] : List AudioChunk).length + 1) 0 = some bs ∧
      bs.flatten = [⟨0, 0, 120, 0⟩] ∧ ∀ b ∈ bs, b.length ≤ 10 :=
  c10_batch_partition envOneChunk [⟨0, 0, 120, 0⟩] 10 (by norm_num) (by norm_num)

/-- Counterexample to C10 as stated: the submission endpoint accepts
`max_parallel = -1` unchanged (`Math.min(-1, 10) = -1`), and with one
surviving chunk the batch loop `for (i = 0; i < 1; i += -1)` never
terminates: no fuel bound makes it produce outcomes. -/
theorem c10_negative_parallel_diverges_cex :
    postTranscribe true
        { audio_url := some "http://a", language := none, chunk_duration := none,
          max_parallel := some (-1), expected_duration := none } =
      .accepted
        { status := .pending, progress := 0, audio_url := "http://a",
          language := "auto", chunk_duration := none, max_parallel := -1 } ∧
    ¬ ∃ fuel : ℕ,
      ((transLoop envOneChunk [⟨0, 0, 120, 0⟩] (-1) fuel 0 []).2).isSome = true := by
  constructor
  · decide
  · rintro ⟨fuel, hsome⟩
    rw [transLoop_stuck envOneChunk [⟨0, 0, 120, 0⟩] (-1) (by norm_num) (by simp)
      fuel 0 le_rfl []] at hsome
    simp at hsome
